import Mathlib

/-!
Verification of the MyJanjiV3 face-matching core.

This file gives a shallow embedding, in Lean 4, of the face identity
matching engine of the repository: the score formula and match decision of
`compare_embeddings` (backend/face_service.py), the 1:N scan of
`identify_face` (backend/app.py), the enrollment slot
(`store_temp_embedding` / `get_temp_embedding` / `clear_temp_embedding`),
the tiered Haar-cascade fallback of `detect_face`, and the padding/clipping
arithmetic of `crop_face`.

Modelling conventions:
* Python floats are modelled by exact rationals (`ℚ`); Python ints by `ℤ`/`ℕ`.
* Python's built-in `round` rounds halves to the nearest even integer
  (banker's rounding); it is modelled exactly by `pyRound`.
* Euclidean distances are represented by their squares (`distSq : WithTop ℚ`),
  since `x ↦ x^2` is an order isomorphism on the non-negative reals: every
  comparison the source makes between distances (`distance < best_distance`,
  thresholding) is mirrored faithfully on squares, and `float('inf')` is `⊤`.
  `scoreOfDistSq q` computes the source's score of the distance `√q` without
  leaving the rationals; `scoreOfDistSq_sq` proves it agrees with the direct
  transcription `scoreOfDistance` of the score formula at every rational
  distance.
* `json.loads` and the numpy array operations are Python-library calls, not
  repository code; they are modelled by their documented contracts: a string
  input is either unparseable (`Emb.badStr`) or parses to a numeric vector
  (`Emb.goodStr`), and numpy's 1-D subtraction broadcasts a length-1 operand
  and raises on any other length mismatch (`npSub`).
-/

namespace MyJanji

/-! ## Configuration constants (config.py) -/

def PASSING_THRESHOLD_DISTANCE : ℚ := 20
def PASSING_THRESHOLD_PERCENTAGE : ℚ := 45
def MAX_IMAGE_SIZE : ℕ := 800

/-! ## Python's `round` on exact rationals -/

/-- Python's built-in `round` for a rational argument: nearest integer,
halves to the nearest even integer (banker's rounding). -/
def pyRound (x : ℚ) : ℤ :=
  if x = (⌊x⌋ : ℚ) + 1/2 then (if ⌊x⌋ % 2 = 0 then ⌊x⌋ else ⌊x⌋ + 1)
  else ⌊x + 1/2⌋

/-! ## The score formula of `compare_embeddings` (face_service.py lines 63-69),
as a function of the (rational) distance. -/

def max_score_dist : ℚ := PASSING_THRESHOLD_DISTANCE * 2

/-- `raw_score = ((max_score_dist - distance) / max_score_dist) * 100`. -/
def rawScore (distance : ℚ) : ℚ := ((max_score_dist - distance) / max_score_dist) * 100

/-- `score = round(max(0, min(100, raw_score)))`. -/
def scoreOfDistance (distance : ℚ) : ℤ := pyRound (max 0 (min 100 (rawScore distance)))

/-- `is_match = score >= PASSING_THRESHOLD_PERCENTAGE`. -/
def isMatchOfDistance (distance : ℚ) : Bool :=
  decide (PASSING_THRESHOLD_PERCENTAGE ≤ (scoreOfDistance distance : ℚ))

/-! ## The same score as a function of the squared distance.

For `q ≥ 0` the source's score of the distance `√q` is computed without
leaving `ℚ`.  With `c := clamp (100 - (5/2)·√q)` the rounded score is
determined by `K := ⌊c + 1/2⌋` together with whether `c + 1/2` is exactly
an integer (the banker's-rounding tie).  For `k ≤ 100` one has
`k ≤ c + 1/2 ↔ 25·q ≤ (201 - 2k)²`, a rational inequality; `findK`
computes the largest such `k ≤ 100`. -/

/-- `25*q ≤ (201 - 2*k)^2`, i.e. (for `k ≤ 100`, `q ≥ 0`) `k ≤ c + 1/2`
where `c = 100 - (5/2)·√q` is the unclamped raw score at distance `√q`. -/
def scoreThresholdHolds (q : ℚ) (k : ℕ) : Bool :=
  decide (25 * q ≤ ((201 : ℚ) - 2 * (k : ℚ))^2)

/-- Largest `k ≤ n` with `scoreThresholdHolds q k`, defaulting to `0`. -/
def findK (q : ℚ) : ℕ → ℕ
  | 0 => 0
  | k + 1 => if scoreThresholdHolds q (k + 1) then k + 1 else findK q k

/-- The rounded score given `K = ⌊c + 1/2⌋`: `K` itself, except at the
banker's-rounding tie `c + 1/2 = K` (detected exactly by
`25·q = (201 - 2K)²`), where the even of `K - 1`, `K` is taken. -/
def scoreFromK (q : ℚ) (K : ℕ) : ℤ :=
  if 25 * q = ((201 : ℚ) - 2 * (K : ℚ))^2 then
    (if K % 2 = 1 then (K : ℤ) - 1 else (K : ℤ))
  else (K : ℤ)

/-- The source's rounded, clamped score at distance `√q`, computed from the
squared distance `q`.  `scoreOfDistSq_sq` below proves
`scoreOfDistSq (d^2) = scoreOfDistance d` for every rational `d ≥ 0`. -/
def scoreOfDistSq (q : ℚ) : ℤ :=
  if 1600 ≤ q then 0 else scoreFromK q (findK q 100)

/-! ## Embedding inputs and `compare_embeddings` (face_service.py lines 37-72) -/

/-- An input to `compare_embeddings`: Python `None`, a string that
`json.loads` rejects, a string that parses to a numeric vector, or a native
numeric sequence. -/
inductive Emb where
  | absent : Emb
  | badStr : String → Emb
  | goodStr : List ℚ → Emb
  | vec : List ℚ → Emb
deriving DecidableEq

/-- The canonicalization performed by the `None`-check and the
`json.loads` branches: `none` exactly when the input is absent or
unparseable. -/
def canon : Emb → Option (List ℚ)
  | .absent => none
  | .badStr _ => none
  | .goodStr v => some v
  | .vec v => some v

/-- numpy 1-D elementwise subtraction: equal lengths subtract pointwise, a
length-1 operand broadcasts, any other length mismatch raises
(`ValueError: operands could not be broadcast together`). -/
def npSub (a b : List ℚ) : Option (List ℚ) :=
  if a.length = b.length then some (List.zipWith (fun x y => x - y) a b)
  else if a.length = 1 then some (b.map (fun y => a.headI - y))
  else if b.length = 1 then some (a.map (fun x => x - b.headI))
  else none

/-- Sum of squares of a vector: the square of its Euclidean norm. -/
def sumSq (v : List ℚ) : ℚ := (v.map (fun x => x * x)).sum

/-- The `(is_match, score, distance)` triple returned by
`compare_embeddings`; the distance is carried as its square, with `⊤` for
`float('inf')`. -/
structure MatchResult where
  is_match : Bool
  score : ℤ
  distSq : WithTop ℚ
deriving DecidableEq

instance : Inhabited MatchResult := ⟨⟨false, 0, ⊤⟩⟩

/-- `compare_embeddings(embedding1, embedding2)` (face_service.py lines
37-72).  Absent or unparseable inputs short-circuit to
`(False, 0, float('inf'))`; otherwise the numpy subtraction either raises
(length mismatch, no broadcast) or yields the difference vector, whose
squared norm determines score and match decision. -/
def compare_embeddings (e1 e2 : Emb) : Except String MatchResult :=
  match canon e1, canon e2 with
  | some v1, some v2 =>
    match npSub v1 v2 with
    | some d =>
      let q := sumSq d
      let score := scoreOfDistSq q
      .ok ⟨decide (PASSING_THRESHOLD_PERCENTAGE ≤ (score : ℚ)), score, (q : WithTop ℚ)⟩
    | none => .error "operands could not be broadcast together"
  | _, _ => .ok ⟨false, 0, ⊤⟩

/-! ## The 1:N identification scan of `identify_face` (app.py lines 476-521) -/

/-- One `(identity reference, stored embedding)` row fetched from the
external user table. -/
structure Candidate where
  ident : ℕ
  emb : Emb
deriving DecidableEq

/-- Python truthiness of a stored embedding, for the scan's
`if not stored_embedding: continue` guard: `None`, the empty string and the
empty list are falsy. -/
def embFalsy : Emb → Bool
  | .absent => true
  | .badStr s => s.isEmpty
  | .goodStr _ => false
  | .vec v => v.isEmpty

/-- The scan's running state `(best_match, best_score, best_distance)`;
initially `(None, 0, float('inf'))`. -/
structure IdentifyResult where
  bestMatch : Option ℕ
  bestScore : ℤ
  bestDistSq : WithTop ℚ
deriving DecidableEq

/-- One iteration of the scan's `for user in users` loop: skip falsy rows,
compare, and on a strictly smaller distance update best distance and score,
updating `best_match` only when `is_match` (app.py lines 481-495).
Since `x ↦ x^2` is strictly monotone on non-negative reals,
`distance < best_distance` is mirrored as `distSq < bestDistSq`. -/
def identifyStep (probe : Emb) (st : IdentifyResult) (c : Candidate) :
    Except String IdentifyResult :=
  if embFalsy c.emb then .ok st
  else
    match compare_embeddings c.emb probe with
    | .error e => .error e
    | .ok r =>
      if r.distSq < st.bestDistSq then
        .ok ⟨if r.is_match then some c.ident else st.bestMatch, r.score, r.distSq⟩
      else .ok st

/-- The full 1:N scan of `identify_face`: a linear fold over the candidate
rows starting from `(None, 0, float('inf'))`; an exception raised by any
comparison aborts the scan. -/
def identify_face (probe : Emb) (cs : List Candidate) : Except String IdentifyResult :=
  cs.foldlM (fun st c => identifyStep probe st c) ⟨none, 0, ⊤⟩

/-! ## The enrollment slot (face_service.py lines 14-34) and the verify step
(`process_frame`, app.py lines 167-262).

The module-level variable `_temp_ic_embedding` is modelled by explicit state
passing: each operation maps the current slot contents (`Option Emb`,
`none` = empty) to the new contents. -/

/-- `store_temp_embedding(embedding)`: unconditionally overwrite the slot. -/
def store_temp_embedding (e : Emb) (_s : Option Emb) : Option Emb := some e

/-- `get_temp_embedding()`: read the slot (`None` when empty). -/
def get_temp_embedding (s : Option Emb) : Option Emb := s

/-- `clear_temp_embedding()`: empty the slot. -/
def clear_temp_embedding (_s : Option Emb) : Option Emb := none

/-- Outcome of the `/process_frame` verify step, as far as the matching core
is concerned. -/
inductive VerifyOutcome where
  | errorNoIC : VerifyOutcome
  | fail : ℤ → VerifyOutcome
  | success : ℤ → VerifyOutcome
  | serverError : String → VerifyOutcome
deriving DecidableEq

/-- The slot interaction of `process_frame` (app.py lines 226-262): read the
stored IC embedding, error out if the slot is empty, otherwise compare it
against the camera embedding and report match or mismatch with the score.
The returned pair is `(outcome, slot contents afterwards)`. -/
def process_frame (camera : Emb) (s : Option Emb) : VerifyOutcome × Option Emb :=
  match get_temp_embedding s with
  | none => (.errorNoIC, s)
  | some ic =>
    match compare_embeddings ic camera with
    | .error e => (.serverError e, s)
    | .ok r => (if r.is_match then .success r.score else .fail r.score, s)

/-! ## Face detection (`detect_face`, face_service.py lines 136-167) and the
whole-frame fallback (`process_frame_for_embedding`, lines 248-269).

The Haar cascade itself is an external OpenCV capability; it is modelled as
an arbitrary function `det` from detection parameters to a list of regions.
The repository's code is the tier policy: which parameters are tried, in
which order, and what happens when nothing is found. -/

/-- The parameters of one `detectMultiScale` call.  The scale factor is
kept as an exact rational (`1.05` = `105/100`, `1.03` = `103/100`). -/
structure CascadeParams where
  scaleFactor : ℚ
  minNeighbors : ℕ
  minSize : ℕ
deriving DecidableEq

/-- Tier 1 ("lenient") parameters for a `w × h` frame:
`scaleFactor=1.05, minNeighbors=1, minSize = max(15, min(w, h) // 20)`. -/
def tier1Params (w h : ℕ) : CascadeParams := ⟨105/100, 1, max 15 (min w h / 20)⟩

/-- Tier 2 ("more lenient") parameters:
`scaleFactor=1.03, minNeighbors=1, minSize = max(10, min(w, h) // 30)`. -/
def tier2Params (w h : ℕ) : CascadeParams := ⟨103/100, 1, max 10 (min w h / 30)⟩

/-- An axis-aligned face region `(x, y, w, h)` in pixel coordinates. -/
structure FaceRegion where
  x : ℤ
  y : ℤ
  w : ℤ
  h : ℤ
deriving DecidableEq

/-- `detect_face(frame)`: try tier 1; if it found nothing, return whatever
tier 2 finds (possibly nothing). -/
def detect_face (det : CascadeParams → List FaceRegion) (w h : ℕ) : List FaceRegion :=
  if (det (tier1Params w h)).isEmpty then det (tier2Params w h)
  else det (tier1Params w h)

/-- One step of Python's `max(faces, key=lambda f: f[2] * f[3])`: keep the
current maximum unless the new region's area is strictly larger (so ties
keep the earlier region). -/
def lfStep (acc : Option FaceRegion) (f : FaceRegion) : Option FaceRegion :=
  match acc with
  | none => some f
  | some g => if f.w * f.h > g.w * g.h then some f else some g

/-- Python's `max(faces, key=lambda f: f[2] * f[3])`: the first region of
maximal area. -/
def largestFace (faces : List FaceRegion) : Option FaceRegion :=
  faces.foldl lfStep none

/-- `crop_face(frame, face_coords, padding=50)` (face_service.py lines
170-190), restricted to its box arithmetic: move the corner up-left by the
padding (clamped at 0), grow the extent by twice the padding (clamped to
the frame edge), and raise `ValueError` if the result leaves the frame. -/
def crop_face (frameW frameH : ℤ) (f : FaceRegion) : Except String FaceRegion :=
  let x := max 0 (f.x - 50)
  let y := max 0 (f.y - 50)
  let w := min (frameW - x) (f.w + 50 * 2)
  let h := min (frameH - y) (f.h + 50 * 2)
  if x < 0 ∨ y < 0 ∨ x + w > frameW ∨ y + h > frameH then
    .error "Invalid crop"
  else .ok ⟨x, y, w, h⟩

/-- Which pixels `process_frame_for_embedding` hands to the embedding
model: the whole frame, or a padded crop of a detected region. -/
inductive EmbedSource where
  | wholeFrame : EmbedSource
  | croppedFace : FaceRegion → EmbedSource
deriving DecidableEq

/-- The detection part of `process_frame_for_embedding` (face_service.py
lines 248-269): run the tiered detection; with no regions, use the entire
frame; otherwise crop the largest region. -/
def process_frame_for_embedding (det : CascadeParams → List FaceRegion)
    (w h : ℕ) : Except String EmbedSource :=
  match largestFace (detect_face det w h) with
  | none => .ok .wholeFrame
  | some f =>
    match crop_face (w : ℤ) (h : ℤ) f with
    | .ok r => .ok (.croppedFace r)
    | .error e => .error e

/-! ## Lemmas about `pyRound` -/

theorem le_pyRound_of_half_lt {x : ℚ} {k : ℤ} (h : (k : ℚ) - 1/2 < x) : k ≤ pyRound x := by
  unfold pyRound
  split
  next ht =>
    have hk : k ≤ ⌊x⌋ := by
      have h1 : (k : ℚ) - 1/2 < (⌊x⌋ : ℚ) + 1/2 := ht ▸ h
      have h2 : (k : ℚ) < (⌊x⌋ : ℚ) + 1 := by linarith
      exact_mod_cast Int.lt_add_one_iff.mp (by exact_mod_cast h2)
    split <;> omega
  next =>
    have : k ≤ ⌊x + 1/2⌋ := Int.le_floor.mpr (by linarith)
    omega

theorem pyRound_le_of_lt_half {x : ℚ} {k : ℤ} (h : x < (k : ℚ) + 1/2) : pyRound x ≤ k := by
  unfold pyRound
  split
  next ht =>
    have hk : ⌊x⌋ < k := by
      have h1 : (⌊x⌋ : ℚ) + 1/2 < (k : ℚ) + 1/2 := ht ▸ h
      have h2 : (⌊x⌋ : ℚ) < (k : ℚ) := by linarith
      exact_mod_cast h2
    split <;> omega
  next =>
    have : ⌊x + 1/2⌋ < k + 1 := Int.floor_lt.mpr (by push_cast; linarith)
    omega


theorem pyRound_tie (x : ℚ) (k : ℤ) (h : x = (k : ℚ) + 1/2) :
    pyRound x = if k % 2 = 0 then k else k + 1 := by
  have hfl : ⌊x⌋ = k := by
    rw [Int.floor_eq_iff]
    constructor
    · rw [h]; linarith
    · rw [h]
      linarith
  unfold pyRound
  rw [if_pos (show x = (⌊x⌋ : ℚ) + 1/2 by rw [hfl]; exact h), hfl]

theorem pyRound_le_of_le_half_even {x : ℚ} {k : ℤ} (h : x ≤ (k : ℚ) + 1/2)
    (hk : k % 2 = 0) : pyRound x ≤ k := by
  rcases lt_or_eq_of_le h with hlt | heq
  · exact pyRound_le_of_lt_half hlt
  · rw [pyRound_tie x k heq, if_pos hk]

theorem pyRound_eq {x : ℚ} {k : ℤ} (h1 : (k : ℚ) - 1/2 < x) (h2 : x < (k : ℚ) + 1/2) :
    pyRound x = k :=
  le_antisymm (pyRound_le_of_lt_half h2) (le_pyRound_of_half_lt h1)

theorem le_pyRound_add_half (x : ℚ) : x ≤ (pyRound x : ℚ) + 1/2 := by
  unfold pyRound
  split
  next ht =>
    split
    · exact le_of_eq ht
    · push_cast
      linarith [ht]
  next =>
    have h1 : x + 1/2 < (⌊x + 1/2⌋ : ℚ) + 1 := Int.lt_floor_add_one _
    linarith

theorem pyRound_mono {x y : ℚ} (hxy : x ≤ y) : pyRound x ≤ pyRound y := by
  have hs : y ≤ (pyRound y : ℚ) + 1/2 := le_pyRound_add_half y
  rcases lt_or_eq_of_le (le_trans hxy hs) with hlt | heq
  · exact pyRound_le_of_lt_half hlt
  · have hyx : y = x := le_antisymm (heq ▸ hs) hxy
    have htie : y = ((pyRound y : ℤ) : ℚ) + 1/2 := hyx.trans heq
    have h5 := pyRound_tie y (pyRound y) htie
    have hkeven : pyRound y % 2 = 0 := by
      by_contra hodd
      rw [if_neg hodd] at h5
      omega
    exact pyRound_le_of_le_half_even (le_of_eq heq) hkeven

theorem le45_pyRound_iff (x : ℚ) : 45 ≤ pyRound x ↔ 89/2 < x := by
  constructor
  · intro h
    by_contra hc
    push_neg at hc
    have : pyRound x ≤ 44 :=
      pyRound_le_of_le_half_even (k := 44) (by push_cast; linarith) (by norm_num)
    omega
  · intro h
    exact le_pyRound_of_half_lt (k := 45) (by push_cast; linarith)

/-! ## Lemmas about `findK` / `scoreFromK` / `scoreOfDistSq` -/

theorem findK_le (q : ℚ) (n : ℕ) : findK q n ≤ n := by
  induction n with
  | zero => simp [findK]
  | succ k ih =>
    unfold findK
    split
    · exact Nat.le_refl _
    · exact Nat.le_trans ih (Nat.le_succ k)

theorem findK_holds {q : ℚ} (h0 : scoreThresholdHolds q 0 = true) (n : ℕ) :
    scoreThresholdHolds q (findK q n) = true := by
  induction n with
  | zero => simpa [findK] using h0
  | succ k ih =>
    unfold findK
    split
    next h => exact h
    next => exact ih

theorem findK_greatest {q : ℚ} {n k : ℕ} (hkn : k ≤ n)
    (hk : scoreThresholdHolds q k = true) : k ≤ findK q n := by
  induction n with
  | zero =>
    simp only [findK]
    omega
  | succ m ih =>
    unfold findK
    split
    · omega
    next hfail =>
      rcases Nat.lt_or_ge k (m + 1) with hlt | hge
      · exact ih (by omega)
      · have hkm : k = m + 1 := by omega
        rw [hkm] at hk
        exact absurd hk hfail

theorem scoreThresholdHolds_antitone {q : ℚ} {j k : ℕ} (hjk : j ≤ k) (hk100 : k ≤ 100)
    (hk : scoreThresholdHolds q k = true) : scoreThresholdHolds q j = true := by
  simp only [scoreThresholdHolds, decide_eq_true_eq] at *
  have hjq : (j : ℚ) ≤ (k : ℚ) := by exact_mod_cast hjk
  have hkq : (k : ℚ) ≤ 100 := by exact_mod_cast hk100
  nlinarith [hk]

theorem scoreThresholdHolds_zero {q : ℚ} (h : q < 1600) :
    scoreThresholdHolds q 0 = true := by
  simp only [scoreThresholdHolds, decide_eq_true_eq]
  push_cast
  nlinarith

theorem findK100_eq {q : ℚ} {k : ℕ} (hk : k ≤ 100)
    (h1 : scoreThresholdHolds q k = true)
    (h2 : k = 100 ∨ scoreThresholdHolds q (k + 1) = false) :
    findK q 100 = k := by
  have hge : k ≤ findK q 100 := findK_greatest hk h1
  have h100 : findK q 100 ≤ 100 := findK_le q 100
  rcases h2 with rfl | h2
  · omega
  · by_contra hne
    have hlt : k + 1 ≤ findK q 100 := by omega
    have h0 : scoreThresholdHolds q 0 = true :=
      scoreThresholdHolds_antitone (Nat.zero_le k) hk h1
    have hold : scoreThresholdHolds q (findK q 100) = true := findK_holds h0 100
    have : scoreThresholdHolds q (k + 1) = true :=
      scoreThresholdHolds_antitone hlt h100 hold
    rw [h2] at this
    exact Bool.false_ne_true this

theorem scoreFromK_le (q : ℚ) (K : ℕ) : scoreFromK q K ≤ (K : ℤ) := by
  unfold scoreFromK
  split
  · split <;> omega
  · omega

theorem scoreFromK_ge (q : ℚ) (K : ℕ) : (K : ℤ) - 1 ≤ scoreFromK q K := by
  unfold scoreFromK
  split
  · split <;> omega
  · omega

theorem scoreFromK_nonneg (q : ℚ) (K : ℕ) : 0 ≤ scoreFromK q K := by
  unfold scoreFromK
  split
  · split <;> omega
  · omega

theorem scoreOfDistSq_nonneg (q : ℚ) : 0 ≤ scoreOfDistSq q := by
  unfold scoreOfDistSq
  split
  · omega
  · exact scoreFromK_nonneg _ _

theorem scoreOfDistSq_le_100 (q : ℚ) : scoreOfDistSq q ≤ 100 := by
  unfold scoreOfDistSq
  split
  · omega
  · have h1 := scoreFromK_le q (findK q 100)
    have h2 := findK_le q 100
    omega

theorem scoreOfDistSq_antitone {q1 q2 : ℚ} (h : q1 ≤ q2) :
    scoreOfDistSq q2 ≤ scoreOfDistSq q1 := by
  unfold scoreOfDistSq
  by_cases h1 : 1600 ≤ q1
  · rw [if_pos h1, if_pos (le_trans h1 h)]
  · rw [if_neg h1]
    by_cases h2 : 1600 ≤ q2
    · rw [if_pos h2]
      exact scoreFromK_nonneg _ _
    · rw [if_neg h2]
      push_neg at h1 h2
      have hthr : ∀ j : ℕ, scoreThresholdHolds q2 j = true →
          scoreThresholdHolds q1 j = true := by
        intro j hj
        simp only [scoreThresholdHolds, decide_eq_true_eq] at *
        linarith
      have hold2 : scoreThresholdHolds q2 (findK q2 100) = true :=
        findK_holds (scoreThresholdHolds_zero h2) 100
      have hK : findK q2 100 ≤ findK q1 100 :=
        findK_greatest (findK_le q2 100) (hthr _ hold2)
      rcases Nat.lt_or_ge (findK q2 100) (findK q1 100) with hlt | hge
      · have hu := scoreFromK_le q2 (findK q2 100)
        have hl := scoreFromK_ge q1 (findK q1 100)
        omega
      · have hKK : findK q1 100 = findK q2 100 := by omega
        by_cases ht1 : 25 * q1 = ((201 : ℚ) - 2 * ((findK q1 100 : ℕ) : ℚ))^2
        · have hq2le : 25 * q2 ≤ 25 * q1 := by
            have := hold2
            simp only [scoreThresholdHolds, decide_eq_true_eq] at this
            rw [ht1, hKK]
            exact this
          have hq12 : q1 = q2 := le_antisymm h (by linarith)
          rw [hq12]
        · have hr : scoreFromK q1 (findK q1 100) = ((findK q1 100 : ℕ) : ℤ) := by
            rw [scoreFromK, if_neg ht1]
          rw [hr]
          have := scoreFromK_le q2 (findK q2 100)
          omega

theorem le_of_sq_le_sq {a b : ℚ} (_ha : 0 ≤ a) (hb : 0 ≤ b) (h : a^2 ≤ b^2) : a ≤ b := by
  by_contra hc
  push_neg at hc
  nlinarith

/-- The bridge between the squared-distance computation and the literal
score formula: at every non-negative rational distance `d`,
`scoreOfDistSq (d^2)` is exactly the source's `round(clamp(rawScore(d)))`. -/
theorem scoreOfDistSq_sq {d : ℚ} (hd : 0 ≤ d) :
    scoreOfDistSq (d^2) = scoreOfDistance d := by
  rcases le_or_lt 40 d with h40 | h40
  · have hq : (1600 : ℚ) ≤ d^2 := by nlinarith
    unfold scoreOfDistSq
    rw [if_pos hq]
    have hraw : rawScore d ≤ 0 := by
      unfold rawScore max_score_dist PASSING_THRESHOLD_DISTANCE
      have heq : ((20 * 2 - d) / (20 * 2) : ℚ) * 100 = (40 - d) * 5 / 2 := by ring
      rw [heq]
      linarith
    have hsc : scoreOfDistance d = 0 := by
      unfold scoreOfDistance
      rw [max_eq_left (le_trans (min_le_right _ _) hraw)]
      exact pyRound_eq (k := 0) (by norm_num) (by norm_num)
    rw [hsc]
  · have hq : d^2 < 1600 := by nlinarith
    have hraw_eq : rawScore d = 100 - 5 * d / 2 := by
      unfold rawScore max_score_dist PASSING_THRESHOLD_DISTANCE
      ring
    have hc1 : (0 : ℚ) < 100 - 5 * d / 2 := by linarith
    have hc2 : 100 - 5 * d / 2 ≤ (100 : ℚ) := by linarith
    have hclamp : max 0 (min 100 (rawScore d)) = 100 - 5 * d / 2 := by
      rw [hraw_eq, min_eq_right hc2, max_eq_right hc1.le]
    unfold scoreOfDistSq scoreOfDistance
    rw [if_neg (not_le.mpr hq), hclamp]
    have hK100 : findK (d^2) 100 ≤ 100 := findK_le _ 100
    have hKhold : scoreThresholdHolds (d^2) (findK (d^2) 100) = true :=
      findK_holds (scoreThresholdHolds_zero hq) 100
    set K := findK (d^2) 100 with hKdef
    have hKq : ((K : ℕ) : ℚ) ≤ 100 := by exact_mod_cast hK100
    have hTpos : (0 : ℚ) ≤ 201 - 2 * (K : ℚ) := by linarith
    have hup : 5 * d ≤ 201 - 2 * (K : ℚ) := by
      have h := hKhold
      simp only [scoreThresholdHolds, decide_eq_true_eq] at h
      have h5 : (5 * d)^2 ≤ (201 - 2 * (K : ℚ))^2 := by nlinarith [h]
      exact le_of_sq_le_sq (by linarith) hTpos h5
    have hmax : K < 100 → ¬ (25 * d^2 ≤ ((201 : ℚ) - 2 * ((K : ℚ) + 1))^2) := by
      intro hlt hcon
      have htrue : scoreThresholdHolds (d^2) (K + 1) = true := by
        simp only [scoreThresholdHolds, decide_eq_true_eq]
        push_cast
        calc 25 * d^2 ≤ ((201 : ℚ) - 2 * ((K : ℚ) + 1))^2 := hcon
          _ = ((201 : ℚ) - 2 * ((K : ℚ) + 1))^2 := rfl
      have := findK_greatest (show K + 1 ≤ 100 by omega) htrue
      omega
    have hcil : 100 - 5 * d / 2 + 1/2 < (K : ℚ) + 1 := by
      rcases Nat.lt_or_ge K 100 with hlt | hge
      · have hfail := hmax hlt
        push_neg at hfail
        have hbase : (0 : ℚ) ≤ 201 - 2 * ((K : ℚ) + 1) := by
          have : ((K : ℕ) : ℚ) ≤ 99 := by exact_mod_cast Nat.lt_succ_iff.mp (by omega)
          linarith
        have hlt5 : 201 - 2 * ((K : ℚ) + 1) < 5 * d := by
          by_contra hcon
          push_neg at hcon
          have : 25 * d^2 ≤ ((201 : ℚ) - 2 * ((K : ℚ) + 1))^2 := by nlinarith
          linarith
        linarith
      · have : ((K : ℕ) : ℚ) = 100 := by
          have : K = 100 := by omega
          exact_mod_cast this
        linarith
    unfold scoreFromK
    by_cases ht : 25 * d^2 = ((201 : ℚ) - 2 * (K : ℚ))^2
    · rw [if_pos ht]
      have hdown : 201 - 2 * (K : ℚ) ≤ 5 * d := by
        have h5 : (201 - 2 * (K : ℚ))^2 ≤ (5 * d)^2 := by nlinarith [ht]
        exact le_of_sq_le_sq hTpos (by linarith) h5
      have heq5 : 5 * d = 201 - 2 * (K : ℚ) := le_antisymm hup hdown
      have htie : 100 - 5 * d / 2 = (((K : ℤ) - 1 : ℤ) : ℚ) + 1/2 := by
        push_cast
        linarith
      rw [pyRound_tie _ _ htie]
      rcases Nat.mod_two_eq_zero_or_one K with hp | hp
      · rw [if_neg (by omega : ¬ K % 2 = 1), if_neg (by omega : ¬ ((K : ℤ) - 1) % 2 = 0)]
        omega
      · rw [if_pos hp, if_pos (by omega : ((K : ℤ) - 1) % 2 = 0)]
    · rw [if_neg ht]
      have hstrict : (K : ℚ) < 100 - 5 * d / 2 + 1/2 := by
        rcases lt_or_eq_of_le (by linarith [hup] : (K : ℚ) ≤ 100 - 5 * d / 2 + 1/2) with h | h
        · exact h
        · exfalso
          have : 5 * d = 201 - 2 * (K : ℚ) := by linarith
          exact ht (by nlinarith [this])
      exact (pyRound_eq (k := (K : ℤ)) (by push_cast; linarith) (by push_cast; linarith)).symm

/-! ## The score as seen through compare results -/

/-- The score determined by a (possibly infinite) squared distance:
`0` at `float('inf')`, else `scoreOfDistSq`. -/
def scoreOfDistSqT : WithTop ℚ → ℤ
  | none => 0
  | some q => scoreOfDistSq q

theorem scoreOfDistSqT_nonneg (a : WithTop ℚ) : 0 ≤ scoreOfDistSqT a := by
  cases a with
  | top => exact le_refl 0
  | coe q => exact scoreOfDistSq_nonneg q

theorem scoreOfDistSqT_le_100 (a : WithTop ℚ) : scoreOfDistSqT a ≤ 100 := by
  cases a with
  | top =>
    show (0 : ℤ) ≤ 100
    omega
  | coe q => exact scoreOfDistSq_le_100 q

theorem scoreOfDistSqT_antitone {a b : WithTop ℚ} (hab : a ≤ b) :
    scoreOfDistSqT b ≤ scoreOfDistSqT a := by
  cases b with
  | top => exact scoreOfDistSqT_nonneg a
  | coe qb =>
    cases a with
    | top => exact absurd hab (by simp)
    | coe qa => exact scoreOfDistSq_antitone (WithTop.coe_le_coe.mp hab)

/-- What every `MatchResult` produced by `compare_embeddings` satisfies: the
match flag is the threshold test on the score, the score is the one
determined by the (possibly infinite) squared distance, and the squared
distance is non-negative. -/
def Sound (m : MatchResult) : Prop :=
  m.is_match = decide (45 ≤ m.score) ∧ m.score = scoreOfDistSqT m.distSq ∧
    (0 : WithTop ℚ) ≤ m.distSq

theorem sumSq_nonneg (v : List ℚ) : 0 ≤ sumSq v := by
  unfold sumSq
  induction v with
  | nil => simp
  | cons a rest ih =>
    simp only [List.map_cons, List.sum_cons]
    nlinarith [mul_self_nonneg a]

theorem degraded_sound : Sound ⟨false, 0, ⊤⟩ :=
  ⟨by decide, rfl, le_top⟩

theorem compare_ok_sound {e1 e2 : Emb} {m : MatchResult}
    (h : compare_embeddings e1 e2 = .ok m) : Sound m := by
  unfold compare_embeddings at h
  split at h
  next v1 v2 =>
    split at h
    next dv hnp =>
      injection h with h
      subst h
      refine ⟨?_, rfl, ?_⟩
      · simp only []
        unfold PASSING_THRESHOLD_PERCENTAGE
        rcases Decidable.em ((45 : ℤ) ≤ scoreOfDistSq (sumSq dv)) with hle | hle
        · rw [decide_eq_true hle, decide_eq_true (by exact_mod_cast hle)]
        · rw [decide_eq_false hle, decide_eq_false (by exact_mod_cast hle)]
      · show (0 : WithTop ℚ) ≤ ((sumSq dv : ℚ) : WithTop ℚ)
        exact_mod_cast sumSq_nonneg dv
    next => exact absurd h (by simp)
  next =>
    injection h with h
    subst h
    exact degraded_sound

/-- Total version of `compare_embeddings` for stating scan properties; on
the (raising) error branch it returns the degraded result, which never
occurs inside a successfully completed scan. -/
def compareD (e1 e2 : Emb) : MatchResult :=
  match compare_embeddings e1 e2 with
  | .ok m => m
  | .error _ => default

theorem compareD_sound (e1 e2 : Emb) : Sound (compareD e1 e2) := by
  unfold compareD
  split
  next m h => exact compare_ok_sound h
  next => exact degraded_sound

theorem Sound.is_match_iff {m : MatchResult} (h : Sound m) :
    m.is_match = true ↔ 45 ≤ m.score := by
  rw [h.1, decide_eq_true_eq]

/-! ## Boundary lemmas for the match decision as a function of distance -/

theorem isMatchOfDistance_iff (d : ℚ) :
    isMatchOfDistance d = true ↔ 45 ≤ scoreOfDistance d := by
  unfold isMatchOfDistance PASSING_THRESHOLD_PERCENTAGE
  rw [decide_eq_true_eq]
  constructor
  · intro h; exact_mod_cast h
  · intro h; exact_mod_cast h

theorem rawScore_eq (d : ℚ) : rawScore d = 100 - 5 * d / 2 := by
  unfold rawScore max_score_dist PASSING_THRESHOLD_DISTANCE
  ring

/-- The match decision holds exactly when the unclamped raw score exceeds
`44.5`. -/
theorem isMatch_iff_raw (d : ℚ) : isMatchOfDistance d = true ↔ 89/2 < rawScore d := by
  rw [isMatchOfDistance_iff]
  unfold scoreOfDistance
  rw [le45_pyRound_iff]
  constructor
  · intro h
    rcases le_or_lt (rawScore d) (89/2) with hc | hc
    · exfalso
      have h1 : min 100 (rawScore d) ≤ 89/2 := le_trans (min_le_right _ _) hc
      have h2 : max 0 (min 100 (rawScore d)) ≤ 89/2 := max_le (by norm_num) h1
      linarith
    · exact hc
  · intro h
    have h1 : (89/2 : ℚ) < min 100 (rawScore d) := lt_min (by norm_num) h
    exact lt_of_lt_of_le h1 (le_max_right _ _)

/-- Equivalently: the effective accept boundary is `distance < 22.2`. -/
theorem isMatch_iff_dist (d : ℚ) : isMatchOfDistance d = true ↔ d < 111/5 := by
  rw [isMatch_iff_raw, rawScore_eq]
  constructor <;> intro h <;> linarith

/-- Evaluation helper: inside the unclamped range the score is the rounded
raw score. -/
theorem scoreOfDistance_in_range {d : ℚ} (h0 : 0 ≤ d) (h40 : d ≤ 40) :
    scoreOfDistance d = pyRound (100 - 5 * d / 2) := by
  unfold scoreOfDistance
  rw [rawScore_eq, min_eq_right (by linarith), max_eq_right (by linarith)]

/-! ## Specification-side description of the 1:N scan.

`scanBest`/`firstArgmin` restate the claim's words — "scan in order, keep
the strict minimum-distance candidate, ties to the first seen" — as pure
functions on the list of comparison outcomes, to be proved equal to what
`identify_face` computes. -/

/-- The pure body of one scan iteration (the non-skipped case). -/
def stepPure (st : IdentifyResult) (i : ℕ) (m : MatchResult) : IdentifyResult :=
  if m.distSq < st.bestDistSq then
    ⟨if m.is_match then some i else st.bestMatch, m.score, m.distSq⟩
  else st

/-- The scan over a list of already-computed comparison outcomes. -/
def scanBest (st : IdentifyResult) : List (ℕ × MatchResult) → IdentifyResult
  | [] => st
  | (i, m) :: rest => scanBest (stepPure st i m) rest

/-- The minimum squared distance over a list of outcomes (`⊤` if empty). -/
def minDistSq (l : List (ℕ × MatchResult)) : WithTop ℚ :=
  l.foldr (fun p acc => min p.2.distSq acc) ⊤

/-- The first outcome attaining the global minimum distance. -/
def firstArgmin (l : List (ℕ × MatchResult)) : Option (ℕ × MatchResult) :=
  l.find? (fun p => decide (p.2.distSq = minDistSq l))

/-- The comparison outcomes the scan actually processes: non-falsy rows in
order, each paired with its comparison against the probe. -/
def resultsOf (probe : Emb) (cs : List Candidate) : List (ℕ × MatchResult) :=
  (cs.filter (fun c => !(embFalsy c.emb))).map (fun c => (c.ident, compareD c.emb probe))

theorem minDistSq_cons (p : ℕ × MatchResult) (l : List (ℕ × MatchResult)) :
    minDistSq (p :: l) = min p.2.distSq (minDistSq l) := rfl

theorem identifyStep_skip {probe : Emb} {st : IdentifyResult} {c : Candidate}
    (hf : embFalsy c.emb = true) : identifyStep probe st c = .ok st := by
  unfold identifyStep
  rw [if_pos hf]

theorem identifyStep_ok {probe : Emb} {st : IdentifyResult} {c : Candidate} {m : MatchResult}
    (hf : embFalsy c.emb = false) (hc : compare_embeddings c.emb probe = .ok m) :
    identifyStep probe st c = .ok (stepPure st c.ident m) := by
  unfold identifyStep
  rw [if_neg (by simp [hf]), hc]
  simp only [stepPure]
  split <;> rfl

theorem identifyStep_error {probe : Emb} {st : IdentifyResult} {c : Candidate} {e : String}
    (hf : embFalsy c.emb = false) (hc : compare_embeddings c.emb probe = .error e) :
    identifyStep probe st c = .error e := by
  unfold identifyStep
  rw [if_neg (by simp [hf]), hc]

/-- A successfully completed `identify_face` fold computes exactly
`scanBest` of the comparison outcomes. -/
theorem foldlM_ok_eq_scanBest (probe : Emb) (cs : List Candidate) :
    ∀ st r : IdentifyResult,
      cs.foldlM (fun st c => identifyStep probe st c) st = .ok r →
      r = scanBest st (resultsOf probe cs) := by
  induction cs with
  | nil =>
    intro st r h
    simp only [List.foldlM_nil] at h
    have h' : (Except.ok st : Except String IdentifyResult) = .ok r := h
    injection h' with h''
    rw [← h'']
    rfl
  | cons c rest ih =>
    intro st r h
    rw [List.foldlM_cons] at h
    by_cases hf : embFalsy c.emb = true
    · rw [identifyStep_skip hf] at h
      have h' : rest.foldlM (fun st c => identifyStep probe st c) st = .ok r := h
      rw [ih st r h']
      have : resultsOf probe (c :: rest) = resultsOf probe rest := by
        unfold resultsOf
        rw [List.filter_cons_of_neg (by simp [hf])]
      rw [this]
    · have hf' : embFalsy c.emb = false := by
        cases hx : embFalsy c.emb
        · rfl
        · exact absurd hx hf
      cases hcmp : compare_embeddings c.emb probe with
      | error e =>
        rw [identifyStep_error hf' hcmp] at h
        exact Except.noConfusion h
      | ok m =>
        rw [identifyStep_ok hf' hcmp] at h
        have h' : rest.foldlM (fun st c => identifyStep probe st c)
            (stepPure st c.ident m) = .ok r := h
        have hres : resultsOf probe (c :: rest)
            = (c.ident, m) :: resultsOf probe rest := by
          unfold resultsOf
          rw [List.filter_cons_of_pos (by simp [hf']), List.map_cons]
          have : compareD c.emb probe = m := by
            unfold compareD
            rw [hcmp]
          rw [this]
        rw [ih _ r h', hres]
        rfl

/-- The invariant the scan state maintains: the best score is the one
determined by the best distance, and a best match is recorded exactly when
that score clears the threshold. -/
def StInv (st : IdentifyResult) : Prop :=
  st.bestScore = scoreOfDistSqT st.bestDistSq ∧ (st.bestMatch = none ↔ st.bestScore < 45)

theorem stInv_init : StInv ⟨none, 0, ⊤⟩ := ⟨rfl, by simp⟩

theorem stepPure_stinv {st : IdentifyResult} {i : ℕ} {m : MatchResult}
    (hm : Sound m) (hst : StInv st) : StInv (stepPure st i m) := by
  unfold stepPure
  split
  next hlt =>
    refine ⟨hm.2.1, ?_⟩
    cases hmb : m.is_match with
    | false =>
      have hscore : m.score < 45 := by
        have hiff := hm.is_match_iff
        rw [hmb] at hiff
        simp only [Bool.false_eq_true, false_iff, not_le] at hiff
        exact hiff
      have hstnone : st.bestMatch = none := by
        rw [hst.2, hst.1]
        have hanti : scoreOfDistSqT st.bestDistSq ≤ scoreOfDistSqT m.distSq :=
          scoreOfDistSqT_antitone hlt.le
        rw [hm.2.1] at hscore
        omega
      rw [if_neg Bool.false_ne_true]
      exact iff_of_true hstnone hscore
    | true =>
      have hscore : 45 ≤ m.score := hm.is_match_iff.mp hmb
      rw [if_pos rfl]
      refine iff_of_false (Option.some_ne_none i) ?_
      show ¬ m.score < 45
      omega
  next => exact hst

/-- The main characterization of the scan: either some outcome beats the
incoming state, and then the result carries the score/distance of the first
global argmin (with the best-match field set exactly per its match flag),
or none does and the state passes through unchanged. -/
theorem scanBest_spec (l : List (ℕ × MatchResult)) :
    ∀ st : IdentifyResult, (∀ p ∈ l, Sound p.2) → StInv st →
      (minDistSq l < st.bestDistSq →
        ∃ i m, firstArgmin l = some (i, m) ∧
          (scanBest st l).bestScore = m.score ∧
          (scanBest st l).bestDistSq = m.distSq ∧
          (m.is_match = true → (scanBest st l).bestMatch = some i) ∧
          (m.is_match = false → (scanBest st l).bestMatch = st.bestMatch)) ∧
      (¬ minDistSq l < st.bestDistSq → scanBest st l = st) := by
  induction l with
  | nil =>
    intro st _ _
    constructor
    · intro h
      exact absurd h (by simp [minDistSq])
    · intro _
      rfl
  | cons p rest ih =>
    obtain ⟨i0, m0⟩ := p
    intro st hS hI
    have hm0 : Sound m0 := hS _ (List.mem_cons_self _ _)
    have hSrest : ∀ q ∈ rest, Sound q.2 := fun q hq => hS q (List.mem_cons_of_mem _ hq)
    have hscan : scanBest st ((i0, m0) :: rest) = scanBest (stepPure st i0 m0) rest := rfl
    have hmin : minDistSq ((i0, m0) :: rest) = min m0.distSq (minDistSq rest) := rfl
    rcases le_or_lt m0.distSq (minDistSq rest) with hle | hlt
    · have hminl : minDistSq ((i0, m0) :: rest) = m0.distSq := by
        rw [hmin, min_eq_left hle]
      constructor
      · intro hltst
        rw [hminl] at hltst
        have hstep : stepPure st i0 m0
            = ⟨if m0.is_match then some i0 else st.bestMatch, m0.score, m0.distSq⟩ := by
          unfold stepPure
          rw [if_pos hltst]
        have hrest : ¬ minDistSq rest < (stepPure st i0 m0).bestDistSq := by
          rw [hstep]
          exact not_lt.mpr hle
        have h2 := (ih (stepPure st i0 m0) hSrest (stepPure_stinv hm0 hI)).2 hrest
        refine ⟨i0, m0, ?_, ?_, ?_, ?_, ?_⟩
        · unfold firstArgmin
          rw [List.find?_cons_of_pos _ (by simp [hminl])]
        · rw [hscan, h2, hstep]
        · rw [hscan, h2, hstep]
        · intro hm
          rw [hscan, h2, hstep]
          simp only [if_pos hm]
        · intro hm
          rw [hscan, h2, hstep]
          simp only []
          rw [if_neg (by rw [hm]; exact Bool.false_ne_true)]
      · intro hnlt
        rw [hminl] at hnlt
        have hstep : stepPure st i0 m0 = st := by
          unfold stepPure
          rw [if_neg hnlt]
        have hrest : ¬ minDistSq rest < st.bestDistSq := by
          intro hc
          exact hnlt (lt_of_le_of_lt hle hc)
        rw [hscan, hstep]
        exact (ih st hSrest hI).2 hrest
    · have hminl : minDistSq ((i0, m0) :: rest) = minDistSq rest := by
        rw [hmin, min_eq_right hlt.le]
      have hfam : firstArgmin ((i0, m0) :: rest) = firstArgmin rest := by
        unfold firstArgmin
        rw [List.find?_cons_of_neg _ (by
          simp only [hminl]
          intro hc
          exact absurd (of_decide_eq_true hc) hlt.ne'), hminl]
      constructor
      · intro hltst
        rw [hminl] at hltst
        by_cases hup : m0.distSq < st.bestDistSq
        · have hstep : stepPure st i0 m0
              = ⟨if m0.is_match then some i0 else st.bestMatch, m0.score, m0.distSq⟩ := by
            unfold stepPure
            rw [if_pos hup]
          have hrest : minDistSq rest < (stepPure st i0 m0).bestDistSq := by
            rw [hstep]
            exact hlt
          obtain ⟨i, m, hfa, hsc, hds, hmt, hmf⟩ :=
            (ih (stepPure st i0 m0) hSrest (stepPure_stinv hm0 hI)).1 hrest

          refine ⟨i, m, by rw [hfam]; exact hfa, ?_, ?_, ?_, ?_⟩
          · rw [hscan]; exact hsc
          · rw [hscan]; exact hds
          · intro hm'
            rw [hscan]
            exact hmt hm'
          · intro hm'
            rw [hscan, hmf hm', hstep]
            have hmm : m.distSq = minDistSq rest := by
              have := List.find?_some hfa
              simpa using this
            have hmS : Sound m := hSrest _ (List.mem_of_find?_eq_some hfa)
            have hmscore : m.score < 45 := by
              have hiff := hmS.is_match_iff
              rw [hm'] at hiff
              simp only [Bool.false_eq_true, false_iff, not_le] at hiff
              exact hiff
            have hm0false : m0.is_match = false := by
              cases hb : m0.is_match with
              | false => rfl
              | true =>
                exfalso
                have h45 : 45 ≤ m0.score := hm0.is_match_iff.mp hb
                have hanti : scoreOfDistSqT m0.distSq ≤ scoreOfDistSqT m.distSq := by
                  apply scoreOfDistSqT_antitone
                  rw [hmm]
                  exact hlt.le
                rw [hm0.2.1] at h45
                rw [hmS.2.1] at hmscore
                omega
            simp only []
            rw [if_neg (by rw [hm0false]; exact Bool.false_ne_true)]
        · have hstep : stepPure st i0 m0 = st := by
            unfold stepPure
            rw [if_neg hup]
          obtain ⟨i, m, hfa, hsc, hds, hmt, hmf⟩ := (ih st hSrest hI).1 hltst
          refine ⟨i, m, by rw [hfam]; exact hfa, ?_, ?_, ?_, ?_⟩
          · rw [hscan, hstep]; exact hsc
          · rw [hscan, hstep]; exact hds
          · intro hm'
            rw [hscan, hstep]
            exact hmt hm'
          · intro hm'
            rw [hscan, hstep]
            exact hmf hm'
      · intro hnlt
        rw [hminl] at hnlt
        have hnup : ¬ m0.distSq < st.bestDistSq := by
          intro hc
          exact hnlt (lt_trans hlt hc)
        have hstep : stepPure st i0 m0 = st := by
          unfold stepPure
          rw [if_neg hnup]
        rw [hscan, hstep]
        exact (ih st hSrest hI).2 hnlt

/-! ## Further helper lemmas -/

theorem compare_canon_some {e1 e2 : Emb} {v1 v2 dv : List ℚ}
    (h1 : canon e1 = some v1) (h2 : canon e2 = some v2) (hnp : npSub v1 v2 = some dv) :
    compare_embeddings e1 e2
      = .ok ⟨decide (PASSING_THRESHOLD_PERCENTAGE ≤ ((scoreOfDistSq (sumSq dv) : ℤ) : ℚ)),
             scoreOfDistSq (sumSq dv), ((sumSq dv : ℚ) : WithTop ℚ)⟩ := by
  unfold compare_embeddings
  rw [h1, h2]
  simp only [hnp]

theorem compare_canon_none {e1 e2 : Emb} {v1 v2 : List ℚ}
    (h1 : canon e1 = some v1) (h2 : canon e2 = some v2) (hnp : npSub v1 v2 = none) :
    compare_embeddings e1 e2 = .error "operands could not be broadcast together" := by
  unfold compare_embeddings
  rw [h1, h2]
  simp only [hnp]

theorem compare_degraded_left {e1 e2 : Emb} (h1 : canon e1 = none) :
    compare_embeddings e1 e2 = .ok ⟨false, 0, ⊤⟩ := by
  unfold compare_embeddings
  rw [h1]

theorem compare_degraded_right {e1 e2 : Emb} (h2 : canon e2 = none) :
    compare_embeddings e1 e2 = .ok ⟨false, 0, ⊤⟩ := by
  unfold compare_embeddings
  rw [h2]
  cases canon e1 <;> rfl

theorem sumSq_zipWith_self (v : List ℚ) :
    sumSq (List.zipWith (fun x y => x - y) v v) = 0 := by
  induction v with
  | nil => rfl
  | cons a rest ih =>
    simp only [List.zipWith_cons_cons, sumSq, List.map_cons, List.sum_cons] at ih ⊢
    rw [ih]
    ring

theorem scoreOfDistance_of_ge_40 {d : ℚ} (h40 : 40 ≤ d) : scoreOfDistance d = 0 := by
  have hraw : rawScore d ≤ 0 := by
    rw [rawScore_eq]
    linarith
  unfold scoreOfDistance
  rw [max_eq_left (le_trans (min_le_right _ _) hraw)]
  exact pyRound_eq (k := 0) (by norm_num) (by norm_num)

theorem scoreOfDistSq_zero : scoreOfDistSq 0 = 100 := by
  have hb := scoreOfDistSq_sq (d := 0) le_rfl
  norm_num at hb
  rw [hb, scoreOfDistance_in_range (by norm_num) (by norm_num)]
  norm_num
  exact pyRound_eq (k := 100) (by push_cast; norm_num) (by push_cast; norm_num)

theorem scoreOfDistSq_nine : scoreOfDistSq 9 = 92 := by
  have hb := scoreOfDistSq_sq (d := 3) (by norm_num)
  norm_num at hb
  rw [hb, scoreOfDistance_in_range (by norm_num) (by norm_num)]
  have htie : (100 : ℚ) - 5 * 3 / 2 = ((92 : ℤ) : ℚ) + 1/2 := by norm_num
  rw [pyRound_tie _ _ htie]
  norm_num

theorem stepPure_top (st : IdentifyResult) (i : ℕ) :
    stepPure st i ⟨false, 0, ⊤⟩ = st := by
  unfold stepPure
  rw [if_neg]
  exact not_top_lt

/-- A non-falsy candidate whose stored embedding fails to canonicalize is
compared, degrades, and leaves the scan state untouched. -/
theorem identifyStep_malformed {probe : Emb} {st : IdentifyResult} {c : Candidate}
    (hf : embFalsy c.emb = false) (hc : canon c.emb = none) :
    identifyStep probe st c = .ok st := by
  rw [identifyStep_ok hf (compare_degraded_left hc), stepPure_top]

theorem minDistSq_attained (l : List (ℕ × MatchResult)) (h : l ≠ []) :
    ∃ p ∈ l, p.2.distSq = minDistSq l := by
  induction l with
  | nil => exact absurd rfl h
  | cons a rest ih =>
    rcases le_or_lt a.2.distSq (minDistSq rest) with hle | hlt
    · exact ⟨a, List.mem_cons_self _ _, by rw [minDistSq_cons, min_eq_left hle]⟩
    · have hne : rest ≠ [] := by
        rintro rfl
        exact absurd hlt (by simp [minDistSq])
      obtain ⟨p, hp, hpd⟩ := ih hne
      exact ⟨p, List.mem_cons_of_mem _ hp,
        by rw [minDistSq_cons, min_eq_right hlt.le]; exact hpd⟩

theorem largestFace_foldl (l : List FaceRegion) :
    ∀ g0 f : FaceRegion, l.foldl lfStep (some g0) = some f →
      (f = g0 ∨ f ∈ l) ∧ g0.w * g0.h ≤ f.w * f.h ∧ ∀ g ∈ l, g.w * g.h ≤ f.w * f.h := by
  induction l with
  | nil =>
    intro g0 f h
    simp only [List.foldl_nil] at h
    injection h with h
    refine ⟨Or.inl h.symm, by rw [h], ?_⟩
    intro g hg
    exact absurd hg (List.not_mem_nil g)
  | cons a rest ih =>
    intro g0 f h
    simp only [List.foldl_cons, lfStep] at h
    by_cases hc : a.w * a.h > g0.w * g0.h
    · rw [if_pos hc] at h
      obtain ⟨hmem, hge, hall⟩ := ih a f h
      refine ⟨?_, ?_, ?_⟩
      · rcases hmem with rfl | hmem
        · exact Or.inr (List.mem_cons_self _ _)
        · exact Or.inr (List.mem_cons_of_mem _ hmem)
      · omega
      · intro g hg
        rcases List.mem_cons.mp hg with rfl | hg
        · exact hge
        · exact hall g hg
    · rw [if_neg hc] at h
      obtain ⟨hmem, hge, hall⟩ := ih g0 f h
      refine ⟨?_, hge, ?_⟩
      · rcases hmem with rfl | hmem
        · exact Or.inl rfl
        · exact Or.inr (List.mem_cons_of_mem _ hmem)
      · intro g hg
        rcases List.mem_cons.mp hg with rfl | hg
        · omega
        · exact hall g hg

theorem largestFace_spec {faces : List FaceRegion} {f : FaceRegion}
    (h : largestFace faces = some f) :
    f ∈ faces ∧ ∀ g ∈ faces, g.w * g.h ≤ f.w * f.h := by
  cases faces with
  | nil => exact absurd h (by simp [largestFace])
  | cons a rest =>
    have h' : rest.foldl lfStep (some a) = some f := h
    obtain ⟨hmem, hge, hall⟩ := largestFace_foldl rest a f h'
    refine ⟨?_, ?_⟩
    · rcases hmem with rfl | hmem
      · exact List.mem_cons_self _ _
      · exact List.mem_cons_of_mem _ hmem
    · intro g hg
      rcases List.mem_cons.mp hg with rfl | hg
      · exact hge
      · exact hall g hg

/-- `crop_face` never takes its error branch: the padded corner is clamped
at 0 and the extent clipped to the frame edge, so the validation always
passes. -/
theorem crop_face_ok (W H : ℤ) (f : FaceRegion) :
    crop_face W H f = .ok ⟨max 0 (f.x - 50), max 0 (f.y - 50),
      min (W - max 0 (f.x - 50)) (f.w + 50 * 2),
      min (H - max 0 (f.y - 50)) (f.h + 50 * 2)⟩ := by
  unfold crop_face
  rw [if_neg]
  simp only [not_or, not_lt]
  have hx := le_max_left (0 : ℤ) (f.x - 50)
  have hy := le_max_left (0 : ℤ) (f.y - 50)
  have hw := min_le_left (W - max 0 (f.x - 50)) (f.w + 50 * 2)
  have hh := min_le_left (H - max 0 (f.y - 50)) (f.h + 50 * 2)
  refine ⟨by omega, by omega, by omega, by omega⟩

/-- Evaluation helper: the score at a concrete in-range distance is the
integer whose half-open rounding interval contains the raw score. -/
theorem scoreOfDistance_val {d : ℚ} {k : ℤ} (h0 : 0 ≤ d) (h40 : d ≤ 40)
    (hl : (k : ℚ) - 1/2 < 100 - 5 * d / 2) (hr : 100 - 5 * d / 2 < (k : ℚ) + 1/2) :
    scoreOfDistance d = k := by
  rw [scoreOfDistance_in_range h0 h40]
  exact pyRound_eq hl hr

/-! ## Claim theorems -/

/-- C1, counterexample: the claim asserts that under the reference
constants distance `22.01` maps to `isMatch = false` (an effective accept
boundary of `distance ≤ 22.0`), but the code rounds the raw score
`44.975` up to `45`, which meets the percentage threshold, so `isMatch` is
`true` at distance `22.01`. -/
theorem claim_C1_counterexample :
    scoreOfDistance (2201/100) = 45 ∧ isMatchOfDistance (2201/100) = true := by
  constructor
  · exact scoreOfDistance_val (by norm_num) (by norm_num) (by norm_num) (by norm_num)
  · exact (isMatch_iff_dist _).mpr (by norm_num)

/-- C1 (amended): under the reference constants, `compare`'s score map
sends distance 0 to 100, 10 to 75, 20 to 50, 22 to 45 (`isMatch` true),
22.01 to 45 (`isMatch` true, not false as claimed), 30 to 25, and every
distance ≥ 40 to 0; the effective accept boundary is `distance < 22.2`
(not `distance ≤ 22.0`). -/
theorem claim_C1_reference_values :
    scoreOfDistance 0 = 100 ∧ isMatchOfDistance 0 = true ∧
    scoreOfDistance 10 = 75 ∧
    scoreOfDistance 20 = 50 ∧
    scoreOfDistance 22 = 45 ∧ isMatchOfDistance 22 = true ∧
    scoreOfDistance (2201/100) = 45 ∧ isMatchOfDistance (2201/100) = true ∧
    scoreOfDistance 30 = 25 ∧
    (∀ d : ℚ, 40 ≤ d → scoreOfDistance d = 0) ∧
    (∀ d : ℚ, isMatchOfDistance d = true ↔ d < 111/5) := by
  refine ⟨?_, ?_, ?_, ?_, ?_, ?_, ?_, ?_, ?_, ?_, ?_⟩
  · exact scoreOfDistance_val (by norm_num) (by norm_num) (by norm_num) (by norm_num)
  · exact (isMatch_iff_dist _).mpr (by norm_num)
  · exact scoreOfDistance_val (by norm_num) (by norm_num) (by norm_num) (by norm_num)
  · exact scoreOfDistance_val (by norm_num) (by norm_num) (by norm_num) (by norm_num)
  · exact scoreOfDistance_val (by norm_num) (by norm_num) (by norm_num) (by norm_num)
  · exact (isMatch_iff_dist _).mpr (by norm_num)
  · exact scoreOfDistance_val (by norm_num) (by norm_num) (by norm_num) (by norm_num)
  · exact (isMatch_iff_dist _).mpr (by norm_num)
  · exact scoreOfDistance_val (by norm_num) (by norm_num) (by norm_num) (by norm_num)
  · intro d hd
    exact scoreOfDistance_of_ge_40 hd
  · exact isMatch_iff_dist

/-- Witness for C1: the quantified clauses instantiated at concrete
distances. -/
theorem claim_C1_reference_values_witness :
    scoreOfDistance 41 = 0 ∧ isMatchOfDistance 21 = true :=
  ⟨claim_C1_reference_values.2.2.2.2.2.2.2.2.2.1 41 (by norm_num),
   (claim_C1_reference_values.2.2.2.2.2.2.2.2.2.2 21).mpr (by norm_num)⟩

/-- C10: the score rounding is banker's rounding, so under the reference
constants `isMatch` is true exactly when the unclamped raw score exceeds
44.5, equivalently when the distance is strictly below 22.2; at distance
exactly 22.2 the raw score is exactly 44.5, which rounds to the even value
44, and `isMatch` is false. -/
theorem claim_C10_banker_rounding :
    (∀ d : ℚ, isMatchOfDistance d = true ↔ 89/2 < rawScore d) ∧
    (∀ d : ℚ, isMatchOfDistance d = true ↔ d < 111/5) ∧
    rawScore (111/5) = 89/2 ∧
    scoreOfDistance (111/5) = 44 ∧
    isMatchOfDistance (111/5) = false := by
  refine ⟨isMatch_iff_raw, isMatch_iff_dist, ?_, ?_, ?_⟩
  · rw [rawScore_eq]
    norm_num
  · rw [scoreOfDistance_in_range (by norm_num) (by norm_num),
      pyRound_tie _ 44 (by norm_num)]
    norm_num
  · cases h : isMatchOfDistance (111/5) with
    | false => rfl
    | true => exact absurd ((isMatch_iff_dist _).mp h) (lt_irrefl _)

/-- C3: comparing any canonicalizable embedding with itself yields distance
0 (represented by squared distance 0), score 100 and `isMatch = true`. -/
theorem claim_C3_compare_self {e : Emb} {v : List ℚ} (h : canon e = some v) :
    compare_embeddings e e = .ok ⟨true, 100, ((0 : ℚ) : WithTop ℚ)⟩ := by
  have hnp : npSub v v = some (List.zipWith (fun x y => x - y) v v) := by
    unfold npSub
    rw [if_pos rfl]
  rw [compare_canon_some h h hnp, sumSq_zipWith_self, scoreOfDistSq_zero]
  rw [decide_eq_true (show PASSING_THRESHOLD_PERCENTAGE ≤ (((100 : ℤ) : ℚ)) by
    unfold PASSING_THRESHOLD_PERCENTAGE
    norm_num)]

/-- Witness for C3 at the concrete embedding `[1, 2]`. -/
theorem claim_C3_compare_self_witness :
    compare_embeddings (.vec [(1 : ℚ), 2]) (.vec [(1 : ℚ), 2])
      = .ok ⟨true, 100, ((0 : ℚ) : WithTop ℚ)⟩ :=
  claim_C3_compare_self (v := [(1 : ℚ), 2]) rfl

/-- C4: the score is a deterministic, monotonically non-increasing function
of the distance (stated for the literal formula on distances, for the
squared-distance computation `compare` performs, and bridged by
`scoreOfDistSq (d²) = scoreOfDistance d`); every successful compare returns
an integer score in 0..100, a non-negative (squared) distance, and
`isMatch` true exactly when the score meets the 45 threshold. -/
theorem claim_C4_score_invariants :
    (∀ d1 d2 : ℚ, d1 ≤ d2 → scoreOfDistance d2 ≤ scoreOfDistance d1) ∧
    (∀ q1 q2 : ℚ, q1 ≤ q2 → scoreOfDistSq q2 ≤ scoreOfDistSq q1) ∧
    (∀ d : ℚ, 0 ≤ d → scoreOfDistSq (d^2) = scoreOfDistance d) ∧
    (∀ (e1 e2 : Emb) (m : MatchResult), compare_embeddings e1 e2 = .ok m →
      0 ≤ m.score ∧ m.score ≤ 100 ∧ (0 : WithTop ℚ) ≤ m.distSq ∧
      m.score = scoreOfDistSqT m.distSq ∧
      (m.is_match = true ↔ 45 ≤ m.score)) := by
  refine ⟨?_, ?_, ?_, ?_⟩
  · intro d1 d2 h
    unfold scoreOfDistance
    apply pyRound_mono
    have hraw : rawScore d2 ≤ rawScore d1 := by
      rw [rawScore_eq, rawScore_eq]
      linarith
    exact max_le_max (le_refl 0) (min_le_min (le_refl 100) hraw)
  · intro q1 q2 h
    exact scoreOfDistSq_antitone h
  · intro d hd
    exact scoreOfDistSq_sq hd
  · intro e1 e2 m h
    have hs := compare_ok_sound h
    refine ⟨?_, ?_, hs.2.2, hs.2.1, hs.is_match_iff⟩
    · rw [hs.2.1]
      exact scoreOfDistSqT_nonneg _
    · rw [hs.2.1]
      exact scoreOfDistSqT_le_100 _

/-- Witness for C4: monotonicity and the compare-level invariants at
concrete inputs. -/
theorem claim_C4_score_invariants_witness :
    scoreOfDistSq 2 ≤ scoreOfDistSq 1 ∧
    scoreOfDistance 11 ≤ scoreOfDistance 10 ∧
    scoreOfDistSq ((3 : ℚ)^2) = scoreOfDistance 3 ∧
    (0 ≤ (⟨false, 0, ⊤⟩ : MatchResult).score ∧
      (⟨false, 0, ⊤⟩ : MatchResult).score ≤ 100 ∧
      (0 : WithTop ℚ) ≤ (⟨false, 0, ⊤⟩ : MatchResult).distSq ∧
      (⟨false, 0, ⊤⟩ : MatchResult).score
        = scoreOfDistSqT (⟨false, 0, ⊤⟩ : MatchResult).distSq ∧
      ((⟨false, 0, ⊤⟩ : MatchResult).is_match = true
        ↔ 45 ≤ (⟨false, 0, ⊤⟩ : MatchResult).score)) :=
  ⟨claim_C4_score_invariants.2.1 1 2 (by norm_num),
   claim_C4_score_invariants.1 10 11 (by norm_num),
   claim_C4_score_invariants.2.2.1 3 (by norm_num),
   claim_C4_score_invariants.2.2.2 .absent .absent ⟨false, 0, ⊤⟩
     (compare_degraded_left rfl)⟩

/-- C5: an absent (`None`) input or a string that fails JSON parsing makes
`compare` return `(False, 0, float('inf'))` without raising, on either
side; and inside a 1:N scan a malformed (non-empty, unparseable) stored
embedding leaves the scan state and outcome exactly as if that one row
were absent — it can never become the best match and never aborts the rest
of the scan. -/
theorem claim_C5_soft_degrade :
    (∀ e2 : Emb, compare_embeddings .absent e2 = .ok ⟨false, 0, ⊤⟩) ∧
    (∀ e1 : Emb, compare_embeddings e1 .absent = .ok ⟨false, 0, ⊤⟩) ∧
    (∀ (s : String) (e2 : Emb), compare_embeddings (.badStr s) e2 = .ok ⟨false, 0, ⊤⟩) ∧
    (∀ (e1 : Emb) (s : String), compare_embeddings e1 (.badStr s) = .ok ⟨false, 0, ⊤⟩) ∧
    (∀ (probe : Emb) (l1 l2 : List Candidate) (i : ℕ) (s : String), s.isEmpty = false →
        identify_face probe (l1 ++ ⟨i, .badStr s⟩ :: l2) = identify_face probe (l1 ++ l2)) := by
  refine ⟨?_, ?_, ?_, ?_, ?_⟩
  · intro e2
    exact compare_degraded_left rfl
  · intro e1
    exact compare_degraded_right rfl
  · intro s e2
    exact compare_degraded_left rfl
  · intro e1 s
    exact compare_degraded_right rfl
  · intro probe l1 l2 i s hs
    unfold identify_face
    rw [List.foldlM_append, List.foldlM_append]
    cases hres : List.foldlM (fun st c => identifyStep probe st c)
        (⟨none, 0, ⊤⟩ : IdentifyResult) l1 with
    | error e => rfl
    | ok st1 =>
      show List.foldlM (fun st c => identifyStep probe st c) st1 (⟨i, .badStr s⟩ :: l2)
          = List.foldlM (fun st c => identifyStep probe st c) st1 l2
      rw [List.foldlM_cons,
        identifyStep_malformed (c := ⟨i, .badStr s⟩)
          (show embFalsy (Emb.badStr s) = false from hs)
          (show canon (Emb.badStr s) = none from rfl)]
      rfl

/-- Witness for C5: a malformed stored embedding in a singleton candidate
list reduces the scan to the empty scan. -/
theorem claim_C5_soft_degrade_witness :
    identify_face (.vec [(0 : ℚ)]) ([] ++ ⟨7, .badStr "oops"⟩ :: [])
      = identify_face (.vec [(0 : ℚ)]) ([] ++ []) :=
  claim_C5_soft_degrade.2.2.2.2 (.vec [(0 : ℚ)]) [] [] 7 "oops" rfl

/-- C6, counterexample: the claim says every pair of parseable embeddings
of different lengths raises, but numpy broadcasts a length-1 vector:
comparing `[0]` with `[0, 3]` does not raise — it returns distance 3
(squared distance 9), score 92, `isMatch` true. -/
theorem claim_C6_counterexample :
    ([(0 : ℚ)] : List ℚ).length ≠ ([(0 : ℚ), 3] : List ℚ).length ∧
    compare_embeddings (.vec [(0 : ℚ)]) (.vec [(0 : ℚ), 3])
      = .ok ⟨true, 92, ((9 : ℚ) : WithTop ℚ)⟩ := by
  refine ⟨by decide, ?_⟩
  have hnp : npSub [(0 : ℚ)] [(0 : ℚ), 3] = some [(0 : ℚ) - 0, (0 : ℚ) - 3] := rfl
  rw [compare_canon_some (show canon (Emb.vec [(0 : ℚ)]) = some [(0 : ℚ)] from rfl)
    (show canon (Emb.vec [(0 : ℚ), 3]) = some [(0 : ℚ), 3] from rfl) hnp]
  have hss : sumSq [(0 : ℚ) - 0, (0 : ℚ) - 3] = 9 := by
    simp only [sumSq, List.map_cons, List.map_nil, List.sum_cons, List.sum_nil]
    norm_num
  rw [hss, scoreOfDistSq_nine,
    decide_eq_true (show PASSING_THRESHOLD_PERCENTAGE ≤ (((92 : ℤ) : ℚ)) by
      unfold PASSING_THRESHOLD_PERCENTAGE
      norm_num)]

/-- C6 (amended): comparing parseable embeddings of different lengths
raises (is fatal, never degraded) whenever neither operand has length 1;
a length-1 operand is instead broadcast by numpy. -/
theorem claim_C6_dim_mismatch {v1 v2 : List ℚ} (h : v1.length ≠ v2.length)
    (h1 : v1.length ≠ 1) (h2 : v2.length ≠ 1) :
    compare_embeddings (.vec v1) (.vec v2)
      = .error "operands could not be broadcast together" := by
  apply compare_canon_none (show canon (Emb.vec v1) = some v1 from rfl)
    (show canon (Emb.vec v2) = some v2 from rfl)
  unfold npSub
  rw [if_neg h, if_neg h1, if_neg h2]

/-- Witness for C6 at lengths 2 and 3. -/
theorem claim_C6_dim_mismatch_witness :
    compare_embeddings (.vec [(0 : ℚ), 0]) (.vec [(0 : ℚ), 0, 0])
      = .error "operands could not be broadcast together" :=
  claim_C6_dim_mismatch (by decide) (by decide) (by decide)

/-- C7: the enrollment slot returns exactly what was last stored: `get`
after `store e` is `e`; `get` after `clear` is empty; a second `store e2`
overwrites (`get` is `e2`, and no longer `e` when they differ); and the
verify step (`process_frame`) never changes the slot contents, whatever
its outcome. -/
theorem claim_C7_enrollment_slot :
    (∀ (e : Emb) (s : Option Emb), get_temp_embedding (store_temp_embedding e s) = some e) ∧
    (∀ s : Option Emb, get_temp_embedding (clear_temp_embedding s) = none) ∧
    (∀ (e e2 : Emb) (s : Option Emb),
        get_temp_embedding (store_temp_embedding e2 (store_temp_embedding e s)) = some e2) ∧
    (∀ (e e2 : Emb) (s : Option Emb), e ≠ e2 →
        get_temp_embedding (store_temp_embedding e2 (store_temp_embedding e s)) ≠ some e) ∧
    (∀ (camera : Emb) (s : Option Emb), (process_frame camera s).2 = s) := by
  refine ⟨fun e s => rfl, fun s => rfl, fun e e2 s => rfl, ?_, ?_⟩
  · intro e e2 s hne hcon
    injection hcon with hcon
    exact hne hcon.symm
  · intro camera s
    cases s with
    | none => rfl
    | some ic =>
      cases hc : compare_embeddings ic camera with
      | error e => simp [process_frame, get_temp_embedding, hc]
      | ok r => simp [process_frame, get_temp_embedding, hc]

/-- Witness for C7: a second store of a different embedding makes `get`
stop returning the first one. -/
theorem claim_C7_enrollment_slot_witness :
    get_temp_embedding (store_temp_embedding (.vec []) (store_temp_embedding .absent none))
      ≠ some .absent :=
  claim_C7_enrollment_slot.2.2.2.1 .absent (.vec []) none (by decide)

/-- C8, counterexample: tier 2 does not retry with a smaller neighbor
threshold — both tiers call the cascade with `minNeighbors = 1` (here at a
640×480 frame). -/
theorem claim_C8_counterexample :
    (tier1Params 640 480).minNeighbors = 1 ∧
    (tier2Params 640 480).minNeighbors = 1 ∧
    ¬ (tier2Params 640 480).minNeighbors < (tier1Params 640 480).minNeighbors := by
  refine ⟨rfl, rfl, ?_⟩
  decide

/-- C8 (amended): detection is an ordered two-tier fallback — tier 2 uses a
strictly smaller minimum face size and a strictly smaller scale factor than
tier 1, while the neighbor threshold is unchanged (1 in both tiers); if
tier 1 finds nothing the result is tier 2's, otherwise tier 1's; if neither
finds anything the whole frame is used; and the locator never raises for
any frame and any detector behavior. -/
theorem claim_C8_detect_fallback :
    (∀ w h : ℕ, (tier2Params w h).minSize < (tier1Params w h).minSize) ∧
    (∀ w h : ℕ, (tier2Params w h).minNeighbors = (tier1Params w h).minNeighbors) ∧
    (∀ w h : ℕ, (tier2Params w h).scaleFactor < (tier1Params w h).scaleFactor) ∧
    (∀ (det : CascadeParams → List FaceRegion) (w h : ℕ),
        det (tier1Params w h) = [] → detect_face det w h = det (tier2Params w h)) ∧
    (∀ (det : CascadeParams → List FaceRegion) (w h : ℕ),
        det (tier1Params w h) ≠ [] → detect_face det w h = det (tier1Params w h)) ∧
    (∀ (det : CascadeParams → List FaceRegion) (w h : ℕ),
        detect_face det w h = [] → process_frame_for_embedding det w h = .ok .wholeFrame) ∧
    (∀ (det : CascadeParams → List FaceRegion) (w h : ℕ),
        ∃ src : EmbedSource, process_frame_for_embedding det w h = .ok src) := by
  refine ⟨?_, fun w h => rfl, ?_, ?_, ?_, ?_, ?_⟩
  · intro w h
    show max 10 (min w h / 30) < max 15 (min w h / 20)
    omega
  · intro w h
    show (103 : ℚ)/100 < 105/100
    norm_num
  · intro det w h hdet
    unfold detect_face
    rw [hdet]
    rfl
  · intro det w h hdet
    unfold detect_face
    cases hdet2 : det (tier1Params w h) with
    | nil => exact absurd hdet2 hdet
    | cons a l => rfl
  · intro det w h hdet
    unfold process_frame_for_embedding
    rw [hdet]
    rfl
  · intro det w h
    cases hl : largestFace (detect_face det w h) with
    | none =>
      refine ⟨.wholeFrame, ?_⟩
      unfold process_frame_for_embedding
      rw [hl]
    | some f =>
      refine ⟨.croppedFace ⟨max 0 (f.x - 50), max 0 (f.y - 50),
        min ((w : ℤ) - max 0 (f.x - 50)) (f.w + 50 * 2),
        min ((h : ℤ) - max 0 (f.y - 50)) (f.h + 50 * 2)⟩, ?_⟩
      unfold process_frame_for_embedding
      rw [hl]
      simp only [crop_face_ok]

/-- Witness for C8: with a detector that never finds a region, detection
falls through to tier 2 and the locator still answers (whole frame, no
error). -/
theorem claim_C8_detect_fallback_witness :
    detect_face (fun _ => []) 640 480 = (fun _ => ([] : List FaceRegion)) (tier2Params 640 480) ∧
    process_frame_for_embedding (fun _ => []) 640 480 = .ok .wholeFrame :=
  ⟨claim_C8_detect_fallback.2.2.2.1 (fun _ => []) 640 480 rfl,
   claim_C8_detect_fallback.2.2.2.2.2.1 (fun _ => []) 640 480 rfl⟩

/-- C9: when regions are detected, the first region of maximal area
(width × height) is selected; the crop grows it by the fixed 50px padding
on all sides and clips to the frame, so for any detected region inside the
frame the crop succeeds (the invalid-crop error branch is unreachable) and
the resulting box is non-negative and fully inside the frame. -/
theorem claim_C9_largest_crop :
    (∀ (faces : List FaceRegion) (f : FaceRegion), largestFace faces = some f →
        f ∈ faces ∧ ∀ g ∈ faces, g.w * g.h ≤ f.w * f.h) ∧
    (∀ (W H : ℤ) (f : FaceRegion), 0 ≤ f.x → 0 ≤ f.y → 0 ≤ f.w → 0 ≤ f.h →
        f.x + f.w ≤ W → f.y + f.h ≤ H →
        ∃ g : FaceRegion, crop_face W H f = .ok g ∧
          g = ⟨max 0 (f.x - 50), max 0 (f.y - 50),
               min (W - max 0 (f.x - 50)) (f.w + 50 * 2),
               min (H - max 0 (f.y - 50)) (f.h + 50 * 2)⟩ ∧
          0 ≤ g.x ∧ 0 ≤ g.y ∧ 0 ≤ g.w ∧ 0 ≤ g.h ∧ g.x + g.w ≤ W ∧ g.y + g.h ≤ H) := by
  refine ⟨fun faces f h => largestFace_spec h, ?_⟩
  intro W H f hx hy hw hh hxw hyh
  refine ⟨_, crop_face_ok W H f, rfl, ?_, ?_, ?_, ?_, ?_, ?_⟩
  · exact le_max_left 0 _
  · exact le_max_left 0 _
  · have h3 : max 0 (f.x - 50) ≤ f.x := max_le hx (by omega)
    exact le_min (by omega) (by omega)
  · have h3 : max 0 (f.y - 50) ≤ f.y := max_le hy (by omega)
    exact le_min (by omega) (by omega)
  · show max 0 (f.x - 50) + min (W - max 0 (f.x - 50)) (f.w + 50 * 2) ≤ W
    have := min_le_left (W - max 0 (f.x - 50)) (f.w + 50 * 2)
    omega
  · show max 0 (f.y - 50) + min (H - max 0 (f.y - 50)) (f.h + 50 * 2) ≤ H
    have := min_le_left (H - max 0 (f.y - 50)) (f.h + 50 * 2)
    omega

/-- Witness for C9 at a concrete 80×80 region inside a 640×480 frame. -/
theorem claim_C9_largest_crop_witness :
    ∃ g : FaceRegion, crop_face 640 480 ⟨100, 100, 80, 80⟩ = .ok g ∧
      g = ⟨max 0 (100 - 50), max 0 (100 - 50),
           min (640 - max 0 (100 - 50)) (80 + 50 * 2),
           min (480 - max 0 (100 - 50)) (80 + 50 * 2)⟩ ∧
      0 ≤ (g : FaceRegion).x ∧ 0 ≤ g.y ∧ 0 ≤ g.w ∧ 0 ≤ g.h ∧
      g.x + g.w ≤ 640 ∧ g.y + g.h ≤ 480 :=
  claim_C9_largest_crop.2 640 480 ⟨100, 100, 80, 80⟩ (by decide) (by decide)
    (by decide) (by decide) (by decide) (by decide)

/-- C2: a successfully completed `identify_face` scan is characterized by
the first minimum-distance comparison outcome: with no comparable
candidates the result is "not identified" with score 0 and infinite
distance; otherwise the first outcome attaining the global minimum
(squared) distance exists, the reported best score and best distance are
exactly that outcome's, and the scan reports a match (that candidate's
identity) precisely when that outcome's score reaches 45 — a below-45
best candidate yields "not identified" while still reporting its score and
distance. -/
theorem claim_C2_identify {probe : Emb} {cs : List Candidate} {r : IdentifyResult}
    (h : identify_face probe cs = .ok r) :
    (resultsOf probe cs = [] → r = ⟨none, 0, ⊤⟩) ∧
    (resultsOf probe cs ≠ [] →
      ∃ p : ℕ × MatchResult, firstArgmin (resultsOf probe cs) = some p) ∧
    (∀ (i : ℕ) (m : MatchResult), firstArgmin (resultsOf probe cs) = some (i, m) →
      m.distSq = minDistSq (resultsOf probe cs) ∧
      r.bestScore = m.score ∧
      r.bestDistSq = m.distSq ∧
      (45 ≤ m.score → r.bestMatch = some i) ∧
      (m.score < 45 → r.bestMatch = none)) := by
  have hr : r = scanBest ⟨none, 0, ⊤⟩ (resultsOf probe cs) :=
    foldlM_ok_eq_scanBest probe cs ⟨none, 0, ⊤⟩ r h
  have hSound : ∀ p ∈ resultsOf probe cs, Sound p.2 := by
    intro p hp
    obtain ⟨c, _, rfl⟩ := List.mem_map.mp hp
    exact compareD_sound c.emb probe
  have hspec := scanBest_spec (resultsOf probe cs) ⟨none, 0, ⊤⟩ hSound stInv_init
  refine ⟨?_, ?_, ?_⟩
  · intro he
    rw [hr, he]
    rfl
  · intro hne
    obtain ⟨p, hp, hpd⟩ := minDistSq_attained _ hne
    have hsome : (List.find? (fun p => decide (p.2.distSq = minDistSq (resultsOf probe cs)))
        (resultsOf probe cs)).isSome := List.find?_isSome.mpr ⟨p, hp, by simp [hpd]⟩
    exact Option.isSome_iff_exists.mp hsome
  · intro i m hfa
    have hmm : m.distSq = minDistSq (resultsOf probe cs) := by
      have := List.find?_some hfa
      simpa using this
    have hmS : Sound m := hSound _ (List.mem_of_find?_eq_some hfa)
    by_cases hlt : minDistSq (resultsOf probe cs) < (⊤ : WithTop ℚ)
    · obtain ⟨i', m', hfa', hsc, hds, hmt, hmf⟩ := hspec.1 hlt
      rw [hfa] at hfa'
      injection hfa' with hfa'
      cases hfa'
      refine ⟨hmm, ?_, ?_, ?_, ?_⟩
      · rw [hr]
        exact hsc
      · rw [hr]
        exact hds
      · intro h45
        rw [hr]
        exact hmt (hmS.is_match_iff.mpr h45)
      · intro h45
        rw [hr]
        have hfalse : m.is_match = false := by
          cases hb : m.is_match with
          | false => rfl
          | true => exact absurd (hmS.is_match_iff.mp hb) (by omega)
        exact hmf hfalse
    · have htop : minDistSq (resultsOf probe cs) = ⊤ := by
        rcases lt_or_eq_of_le (le_top : minDistSq (resultsOf probe cs) ≤ ⊤) with hl | he
        · exact absurd hl hlt
        · exact he
      have hscan := hspec.2 hlt
      have hscore : m.score = 0 := by
        rw [hmS.2.1, hmm, htop]
        rfl
      refine ⟨hmm, ?_, ?_, ?_, ?_⟩
      · rw [hr, hscan, hscore]
      · rw [hr, hscan, hmm, htop]
      · intro h45
        omega
      · intro _
        rw [hr, hscan]

/-- Witness for C2: the empty candidate list yields "not identified" with
score 0. -/
theorem claim_C2_identify_witness :
    (⟨none, 0, ⊤⟩ : IdentifyResult) = ⟨none, 0, ⊤⟩ :=
  (@claim_C2_identify (.vec [(0 : ℚ)]) [] ⟨none, 0, ⊤⟩ rfl).1 rfl

end MyJanji
